import Mathlib

/-!
Verification of the semantic-relevance pipeline of the decoupled-search
repository, against a shallow embedding of its TypeScript source.

Embedding conventions:
* JavaScript strings are modelled as Lean `String` (a packed `List Char`);
  the operations used by the source (`toLowerCase`, `includes`,
  `split(/\s+/)`, `split(',')`, `trim`, `slice`, `join(' ')`) are embedded
  as executable Lean functions over the character list, defined below.
* JavaScript numbers appearing in the relevance scores are modelled as
  exact rationals (`ℚ`); the source only ever adds the decimal constants
  0.5, 0.1 and 0.2 and takes `Math.min` with 1.
* `Array.prototype.sort` (required stable by ECMAScript) is modelled by
  `List.mergeSort`, which is stable.
* `undefined`/absent optional fields are modelled with `Option`;
  JavaScript truthiness on strings (where `""` is falsy) is embedded
  explicitly where the source relies on it.
-/

open scoped List

/-- Image attached to an article (lib/types.ts shape; `transformArticle`
fills `width`/`height` with defaults 1200/630). -/
structure ArticleImage where
  url : String
  alt : String
  width : Nat
  height : Nat
deriving DecidableEq

/-- Canonical article record (lib/types.ts `Article`). -/
structure Article where
  id : String
  title : String
  slug : String
  body : String
  summary : String
  category : String
  tags : List String
  readTime : String
  publishedAt : String
  image : Option ArticleImage
deriving DecidableEq

/-- Search result shape (lib/types.ts `SearchResult`), produced by both
relevance engines. -/
structure SearchResult where
  id : String
  score : ℚ
  article : Article
deriving DecidableEq

/-- Embedding of `String.prototype.toLowerCase` (the source only relies on
its effect on basic latin letters, which Lean's `Char.toLower` matches). -/
def jsToLower (s : String) : String :=
  ⟨s.data.map Char.toLower⟩

/-- Embedding of `Array.prototype.join(' ')` on an array of strings. -/
def joinSp : List String → String
  | [] => ""
  | [s] => s
  | s :: rest => s ++ " " ++ joinSp rest

/-- Does `pat` occur as a contiguous run inside `l`?  Helper for
`containsSub` below. -/
def subOf (pat : List Char) : List Char → Bool
  | [] => pat.isEmpty
  | c :: rest => pat.isPrefixOf (c :: rest) || subOf pat rest

/-- Embedding of `String.prototype.includes`: substring containment
(true for the empty pattern, as in JavaScript). -/
def containsSub (s pat : String) : Bool :=
  subOf pat.data s.data

/-- Worker for `jsSplitWs`.  The state is `some acc` while a piece is
being accumulated (in reverse), and `none` while inside a whitespace
separator run whose piece has already been emitted. -/
def splitWsAux : List Char → Option (List Char) → List (List Char)
  | [], some acc => [acc.reverse]
  | [], none => [[]]
  | c :: rest, some acc =>
    if c.isWhitespace then acc.reverse :: splitWsAux rest none
    else splitWsAux rest (some (c :: acc))
  | c :: rest, none =>
    if c.isWhitespace then splitWsAux rest none
    else splitWsAux rest (some [c])

/-- Embedding of `String.prototype.split(/\s+/)`: each maximal nonempty
whitespace run is a separator; leading/trailing separators produce empty
pieces, exactly as in JavaScript. -/
def jsSplitWs (s : String) : List String :=
  (splitWsAux s.data (some [])).map (fun cs => ⟨cs⟩)

/-- The `searchableContent` of an article in `mockSearch`
(lib/demo-mode.ts): title, summary, body, category and tags joined with
spaces and lowercased. -/
def searchableContentOf (article : Article) : String :=
  jsToLower (joinSp ([article.title, article.summary, article.body, article.category]
    ++ article.tags))

/-- Scoring loop body of `mockSearch` (lib/demo-mode.ts): exact-phrase
bonus 0.5, per-token bonus 0.1, title bonus 0.2, capped at 1
(`Math.min(score, 1)`). -/
def articleScore (queryLower : String) (queryWords : List String) (article : Article) : ℚ :=
  min
    (queryWords.foldl
      (fun score word =>
        if containsSub (searchableContentOf article) word then
          score + 0.1 + (if containsSub (jsToLower article.title) word then 0.2 else 0)
        else score)
      (if containsSub (searchableContentOf article) queryLower then 0.5 else 0))
    1

/-- The `scored` map closure of `mockSearch`: each article is paired with
its id and its computed score. -/
def mkScored (queryLower : String) (queryWords : List String) (article : Article) : SearchResult :=
  { id := article.id
    score := articleScore queryLower queryWords article
    article := article }

/-- Embedding of `mockSearch` (lib/demo-mode.ts).  The in-memory corpus
read by the source from `data/mock/articles.json` is passed as the
`articles` parameter; the source's default `limit = 10` is always passed
explicitly here.  `Array.prototype.sort` with comparator
`(a, b) => b.score - a.score` is a stable descending sort by score,
modelled by `List.mergeSort` with `b.score ≤ a.score`. -/
def mockSearch (articles : List Article) (query : String) (limit : Nat) : List SearchResult :=
  let queryLower := jsToLower query
  let queryWords := (jsSplitWs queryLower).filter (fun w => decide (2 < w.length))
  let scored := articles.map (mkScored queryLower queryWords)
  ((scored.filter (fun item => decide (0 < item.score))).mergeSort
    (fun a b => decide (b.score ≤ a.score))).take limit

/-- The token list `queryWords` computed by `mockSearch` for a query. -/
def queryWordsOf (query : String) : List String :=
  (jsSplitWs (jsToLower query)).filter (fun w => decide (2 < w.length))

/-- Unfolding of `mockSearch` into its pipeline stages. -/
theorem mockSearch_eq (articles : List Article) (query : String) (limit : Nat) :
    mockSearch articles query limit =
      (((articles.map (mkScored (jsToLower query) (queryWordsOf query))).filter
          (fun item => decide (0 < item.score))).mergeSort
        (fun a b => decide (b.score ≤ a.score))).take limit := rfl

/-- The one-article corpus named by the specification's round-trip
property (§8.6), with the fields the property leaves unspecified filled
concretely. -/
def tsArticle : Article :=
  { id := "1"
    title := "TypeScript Guide"
    slug := "typescript-guide"
    body := ""
    summary := ""
    category := "Dev"
    tags := []
    readTime := "5 min read"
    publishedAt := "2024-01-01T00:00:00Z"
    image := none }

/-- Concrete evaluation: the score of `tsArticle` for query
`"typescript"` is 0.8 — phrase bonus 0.5 (the searchable text
`"typescript guide   dev"` contains the full query) plus word bonus 0.1
plus title bonus 0.2. -/
theorem score_ts : articleScore (jsToLower "typescript") ["typescript"] tsArticle
    = 0.5 + 0.1 + 0.2 := by
  unfold articleScore
  rw [show containsSub (searchableContentOf tsArticle) (jsToLower "typescript") = true from
    by decide]
  rw [List.foldl_cons, List.foldl_nil]
  rw [show containsSub (searchableContentOf tsArticle) "typescript" = true from by decide]
  rw [show containsSub (jsToLower tsArticle.title) "typescript" = true from by decide]
  simp only [if_true]
  rw [min_def]
  norm_num

/-- The single result `mockSearch` produces on the round-trip corpus for
query `"typescript"`. -/
def tsResult : SearchResult := { id := "1", score := 0.8, article := tsArticle }

/-- Concrete evaluation of `mockSearch` on the specification's
round-trip corpus. -/
theorem eval_ts : mockSearch [tsArticle] "typescript" 10 = [tsResult] := by
  rw [mockSearch_eq]
  rw [show queryWordsOf "typescript" = ["typescript"] from by decide]
  rw [List.map_cons, List.map_nil]
  rw [show mkScored (jsToLower "typescript") ["typescript"] tsArticle = tsResult from by
    unfold mkScored tsResult
    rw [score_ts]
    norm_num [tsArticle]]
  rw [List.filter_cons,
    show decide ((0 : ℚ) < tsResult.score) = true from decide_eq_true (by norm_num [tsResult])]
  simp only [if_true, List.filter_nil, List.mergeSort_singleton, List.take_succ_cons,
    List.take_nil]

/-- The single result `mockSearch` produces on the round-trip corpus for
the whitespace-only query `" "`. -/
def spResult : SearchResult := { id := "1", score := 0.5, article := tsArticle }

/-- Concrete evaluation: for the whitespace-only query `" "` no tokens
survive the length filter, yet the exact-phrase bonus fires because the
space-joined searchable text contains `" "`. -/
theorem score_sp : articleScore (jsToLower " ") [] tsArticle = 0.5 := by
  unfold articleScore
  rw [List.foldl_nil]
  rw [show containsSub (searchableContentOf tsArticle) (jsToLower " ") = true from by decide]
  simp only [if_true]
  rw [min_def]
  norm_num

/-- Concrete evaluation of `mockSearch` on the round-trip corpus for the
whitespace-only query `" "`. -/
theorem eval_sp : mockSearch [tsArticle] " " 10 = [spResult] := by
  rw [mockSearch_eq]
  rw [show queryWordsOf " " = [] from by decide]
  rw [List.map_cons, List.map_nil]
  rw [show mkScored (jsToLower " ") [] tsArticle = spResult from by
    unfold mkScored spResult
    rw [score_sp]
    norm_num [tsArticle]]
  rw [List.filter_cons,
    show decide ((0 : ℚ) < spResult.score) = true from decide_eq_true (by norm_num [spResult])]
  simp only [if_true, List.filter_nil, List.mergeSort_singleton, List.take_succ_cons,
    List.take_nil]

/-- The scoring rule written the way the specification words it (§4.4 /
claim C1): start at 0, add 0.5 for the exact-phrase bonus, add per
surviving token 0.1 plus a further 0.2 when the token also appears in
the lowercased title, and finally clamp to at most 1. -/
def specScore (query : String) (article : Article) : ℚ :=
  let queryLower := jsToLower query
  let tokens := (jsSplitWs queryLower).filter (fun w => decide (2 < w.length))
  let text := searchableContentOf article
  let phraseBonus : ℚ := if containsSub text queryLower then 0.5 else 0
  let tokenBonus : ℚ :=
    (tokens.map (fun w =>
      if containsSub text w then
        0.1 + (if containsSub (jsToLower article.title) w then 0.2 else 0)
      else 0)).sum
  min (phraseBonus + tokenBonus) 1

/-- Folding `acc + f w` over a list starting at `b` is `b` plus the sum
of the images. -/
theorem foldl_add_eq_sum (f : String → ℚ) (l : List String) (b : ℚ) :
    l.foldl (fun acc w => acc + f w) b = b + (l.map f).sum := by
  induction l generalizing b with
  | nil => simp
  | cons w ws ih => simp only [List.foldl_cons, List.map_cons, List.sum_cons, ih, add_assoc]

/-- The scoring loop body of `articleScore`, rewritten in accumulate-sum
form. -/
theorem scoreStep_eq (text titleL : String) :
    (fun (score : ℚ) (word : String) =>
      if containsSub text word then
        score + 0.1 + (if containsSub titleL word then 0.2 else 0)
      else score)
    = (fun (score : ℚ) (word : String) =>
      score + (if containsSub text word then
        0.1 + (if containsSub titleL word then 0.2 else 0) else 0)) := by
  funext s w
  rcases Bool.eq_false_or_eq_true (containsSub text w) with h | h <;>
    simp [h, add_assoc]

/-- The sort comparator of `mockSearch` is transitive. -/
theorem scoreLe_trans : ∀ (a b c : SearchResult),
    decide (b.score ≤ a.score) = true → decide (c.score ≤ b.score) = true →
    decide (c.score ≤ a.score) = true := by
  intro a b c h1 h2
  rw [decide_eq_true_eq] at h1 h2 ⊢
  exact le_trans h2 h1

/-- The sort comparator of `mockSearch` is total. -/
theorem scoreLe_total : ∀ (a b : SearchResult),
    (decide (b.score ≤ a.score) || decide (a.score ≤ b.score)) = true := by
  intro a b
  rcases le_total a.score b.score with h | h <;> simp [h]

/-- C1: for every query and article, the score the lexical fallback
scorer (`mockSearch`) computes equals the specification's scoring
formula (`specScore`): 0.5 exact-phrase bonus, 0.1 per surviving token
found in the searchable text plus a further 0.2 when the token also
occurs in the lowercased title, clamped to at most 1; moreover the whole
`mockSearch` pipeline factors through `specScore`. -/
theorem c1_fallback_score_matches_spec :
    ∀ (query : String) (limit : Nat) (articles : List Article) (article : Article),
      articleScore (jsToLower query) (queryWordsOf query) article = specScore query article ∧
      mockSearch articles query limit =
        (((articles.map (fun a =>
            { id := a.id, score := specScore query a, article := a : SearchResult })).filter
          (fun item => decide (0 < item.score))).mergeSort
          (fun a b => decide (b.score ≤ a.score))).take limit := by
  have hpoint : ∀ (query : String) (article : Article),
      articleScore (jsToLower query) (queryWordsOf query) article = specScore query article := by
    intro query article
    simp only [articleScore, specScore, queryWordsOf]
    rw [scoreStep_eq, foldl_add_eq_sum]
  intro query limit articles article
  refine ⟨hpoint query article, ?_⟩
  rw [mockSearch_eq]
  have hmap : articles.map (mkScored (jsToLower query) (queryWordsOf query))
      = articles.map (fun a =>
          { id := a.id, score := specScore query a, article := a : SearchResult }) :=
    List.map_congr_left (fun a _ => by
      unfold mkScored
      rw [hpoint query a])
  rw [hmap]

/-- C4: for every query, limit and corpus, `mockSearch` returns at most
`limit` results, sorted by score non-increasing, with every score in
(0, 1]. -/
theorem c4_result_invariants :
    ∀ (query : String) (limit : Nat) (articles : List Article),
      (mockSearch articles query limit).length ≤ limit ∧
      (mockSearch articles query limit).Pairwise (fun a b => b.score ≤ a.score) ∧
      ∀ r ∈ mockSearch articles query limit, 0 < r.score ∧ r.score ≤ 1 := by
  intro query limit articles
  rw [mockSearch_eq]
  refine ⟨List.length_take_le _ _, ?_, ?_⟩
  · have hs := List.sorted_mergeSort scoreLe_trans scoreLe_total
      ((articles.map (mkScored (jsToLower query) (queryWordsOf query))).filter
        (fun item => decide (0 < item.score)))
    have hs2 := hs.imp (fun h => of_decide_eq_true h)
    exact hs2.sublist (List.take_sublist _ _)
  · intro r hr
    have hr1 := (List.take_sublist _ _).subset hr
    have hr2 := List.mem_mergeSort.mp hr1
    obtain ⟨hmem, hpos⟩ := List.mem_filter.mp hr2
    refine ⟨of_decide_eq_true hpos, ?_⟩
    obtain ⟨a, _, rfl⟩ := List.mem_map.mp hmem
    exact min_le_right _ _

/-- C4 witness: on the round-trip corpus and query `"typescript"` the
single returned result has a positive score bounded by 1. -/
theorem c4_result_invariants_witness :
    tsResult ∈ mockSearch [tsArticle] "typescript" 10 ∧
      0 < tsResult.score ∧ tsResult.score ≤ 1 := by
  have hm : tsResult ∈ mockSearch [tsArticle] "typescript" 10 := by
    rw [eval_ts]
    exact List.mem_singleton.mpr rfl
  exact ⟨hm, (c4_result_invariants "typescript" 10 [tsArticle]).2.2 tsResult hm⟩

/-- C5: `mockSearch` is deterministic (it is a pure function of its
arguments), and tie-stable: the results carrying any fixed score `s`
appear in the same relative order as their articles do in the corpus. -/
theorem c5_deterministic_tie_stable :
    ∀ (query : String) (limit : Nat) (articles : List Article) (s : ℚ),
      mockSearch articles query limit = mockSearch articles query limit ∧
      ((mockSearch articles query limit).filter (fun r => decide (r.score = s))).map
          (fun r => r.article) <+ articles := by
  intro query limit articles s
  refine ⟨rfl, ?_⟩
  rw [mockSearch_eq]
  set p : SearchResult → Bool := fun r => decide (r.score = s) with hp
  set le : SearchResult → SearchResult → Bool := fun a b => decide (b.score ≤ a.score) with hle
  set scored := articles.map (mkScored (jsToLower query) (queryWordsOf query)) with hscored
  set fl := scored.filter (fun item => decide (0 < item.score)) with hfl
  have hcp : ∀ x ∈ fl.filter p, p x = true := fun x hx => (List.mem_filter.mp hx).2
  have hcscore : ∀ x ∈ fl.filter p, x.score = s := by
    intro x hx
    have := hcp x hx
    rw [hp, decide_eq_true_eq] at this
    exact this
  have hpair : (fl.filter p).Pairwise (fun a b => le a b = true) := by
    apply List.pairwise_of_forall_mem_list
    intro a ha b hb
    rw [hle]
    exact decide_eq_true (le_of_eq ((hcscore b hb).trans (hcscore a ha).symm))
  have hsub : fl.filter p <+ fl.mergeSort le :=
    List.sublist_mergeSort scoreLe_trans scoreLe_total hpair (List.filter_sublist fl)
  have hperm : (fl.mergeSort le).filter p ~ fl.filter p := (List.mergeSort_perm fl le).filter p
  have hceq : (fl.filter p).filter p = fl.filter p := List.filter_eq_self.mpr hcp
  have hsub2 := hsub.filter p
  rw [hceq] at hsub2
  have heq : (fl.mergeSort le).filter p = fl.filter p :=
    ((hsub2.eq_of_length hperm.length_eq.symm)).symm
  have h1 := (List.take_sublist limit (fl.mergeSort le)).filter p
  rw [heq] at h1
  have h2 : fl.filter p <+ scored := (List.filter_sublist fl).trans (List.filter_sublist scored)
  have h4 := (h1.trans h2).map (fun r => r.article)
  have h5 : scored.map (fun r => r.article) = articles := by
    rw [hscored, List.map_map]
    exact (List.map_congr_left fun a _ => rfl).trans (List.map_id articles)
  rw [h5] at h4
  exact h4

/-- C10: every result of `mockSearch` carries the id of its own article,
its article is an element of the input corpus passed through unchanged,
and the multiset of returned articles is a sub-permutation of the corpus
(each corpus entry contributes at most one result). -/
theorem c10_results_from_corpus :
    ∀ (query : String) (limit : Nat) (articles : List Article),
      (∀ r ∈ mockSearch articles query limit, r.id = r.article.id ∧ r.article ∈ articles) ∧
      (mockSearch articles query limit).map (fun r => r.article) <+~ articles := by
  intro query limit articles
  constructor
  · intro r hr
    rw [mockSearch_eq] at hr
    have hr2 := List.mem_mergeSort.mp ((List.take_sublist _ _).subset hr)
    obtain ⟨hmem, _⟩ := List.mem_filter.mp hr2
    obtain ⟨a, ha, rfl⟩ := List.mem_map.mp hmem
    exact ⟨rfl, ha⟩
  · rw [mockSearch_eq]
    set le : SearchResult → SearchResult → Bool := fun a b => decide (b.score ≤ a.score) with hle
    set scored := articles.map (mkScored (jsToLower query) (queryWordsOf query)) with hscored
    set fl := scored.filter (fun item => decide (0 < item.score)) with hfl
    have h1 := ((List.take_sublist limit (fl.mergeSort le)).map (fun r => r.article)).subperm
    have h2 := ((List.mergeSort_perm fl le).map (fun r => r.article)).subperm
    have hfs : fl <+ scored := by
      rw [hfl]
      exact List.filter_sublist scored
    have h3 := (hfs.map (fun r => r.article)).subperm
    have h5 : scored.map (fun r => r.article) = articles := by
      rw [hscored, List.map_map]
      exact (List.map_congr_left fun a _ => rfl).trans (List.map_id articles)
    rw [h5] at h3
    exact (h1.trans h2).trans h3

/-- C3 is false as stated: on the round-trip corpus the query
`"typescript"` does not produce score 0.1 + 0.2 = 0.3 — the searchable
text contains the full query, so the exact-phrase bonus fires too. -/
theorem c3_round_trip_counterexample :
    (mockSearch [tsArticle] "typescript" 10).map (fun r => r.score) ≠ [0.1 + 0.2] := by
  rw [eval_ts]
  simp only [List.map_cons, List.map_nil]
  intro h
  have h2 := List.head_eq_of_cons_eq h
  rw [tsResult] at h2
  norm_num at h2

/-- C3 amended: the round-trip corpus and query `"typescript"` yield
exactly one result, and its score is 0.5 + 0.1 + 0.2 = 0.8: exact-phrase
bonus plus word match plus title bonus. -/
theorem c3_round_trip_score :
    mockSearch [tsArticle] "typescript" 10 =
      [{ id := "1", score := 0.5 + 0.1 + 0.2, article := tsArticle }] ∧
    (mockSearch [tsArticle] "typescript" 10).length = 1 := by
  rw [eval_ts]
  refine ⟨?_, rfl⟩
  norm_num [tsResult]

/-- A query consisting solely of whitespace characters (the empty query
included). -/
def wsOnly (s : String) : Bool :=
  s.data.all Char.isWhitespace

/-- Lowercasing fixes whitespace characters. -/
theorem toLower_ws {c : Char} (h : c.isWhitespace = true) : c.toLower = c := by
  simp only [Char.isWhitespace, Bool.or_eq_true, decide_eq_true_eq] at h
  rcases h with ((h | h) | h) | h <;> subst h <;> decide

/-- The empty pattern is a substring of everything, as with JavaScript's
`String.prototype.includes`. -/
theorem subOf_nil : ∀ (l : List Char), subOf [] l = true := by
  intro l
  induction l with
  | nil => rfl
  | cons c r ih => simp [subOf, List.isPrefixOf]

/-- Every searchable text contains the empty query. -/
theorem containsSub_empty_pat (s : String) : containsSub s "" = true :=
  subOf_nil s.data

/-- Splitting an all-whitespace remainder while inside a separator run
yields a single empty piece. -/
theorem splitWsAux_none_all_ws :
    ∀ (l : List Char), (∀ c ∈ l, c.isWhitespace = true) → splitWsAux l none = [[]] := by
  intro l
  induction l with
  | nil => intro _; rfl
  | cons c r ih =>
    intro h
    have hc := h c (List.mem_cons_self c r)
    rw [show splitWsAux (c :: r) none = splitWsAux r none from by simp [splitWsAux, hc]]
    exact ih (fun x hx => h x (List.mem_cons_of_mem c hx))

/-- Splitting an all-whitespace string produces only empty pieces. -/
theorem jsSplitWs_all_ws {s : String} (h : ∀ c ∈ s.data, c.isWhitespace = true) :
    ∀ w ∈ jsSplitWs s, w.length = 0 := by
  unfold jsSplitWs
  cases hd : s.data with
  | nil =>
    intro w hw
    simp only [splitWsAux, List.map_cons, List.map_nil, List.mem_singleton] at hw
    subst hw
    rfl
  | cons c rest =>
    have hc := h c (by rw [hd]; exact List.mem_cons_self c rest)
    rw [show splitWsAux (c :: rest) (some []) = [] :: splitWsAux rest none from by
      simp [splitWsAux, hc]]
    rw [splitWsAux_none_all_ws rest
      (fun x hx => h x (by rw [hd]; exact List.mem_cons_of_mem c hx))]
    intro w hw
    simp only [List.map_cons, List.map_nil, List.mem_cons, List.mem_singleton,
      List.not_mem_nil, or_false] at hw
    rcases hw with hw | hw <;> subst hw <;> rfl

/-- No token of a whitespace-only query survives the length filter. -/
theorem queryWordsOf_wsOnly {q : String} (h : wsOnly q = true) : queryWordsOf q = [] := by
  unfold queryWordsOf
  rw [List.filter_eq_nil_iff]
  intro w hw
  have hws : ∀ c ∈ (jsToLower q).data, c.isWhitespace = true := by
    intro c hc
    obtain ⟨c0, hc0, rfl⟩ := List.mem_map.mp hc
    have h0 : c0.isWhitespace = true := by
      unfold wsOnly at h
      exact List.all_eq_true.mp h c0 hc0
    rw [toLower_ws h0]
    exact h0
  have hlen := jsSplitWs_all_ws hws w hw
  simp [hlen]

/-- C2 is false as stated: on a one-article corpus the empty query
returns a nonempty result list, because every searchable text contains
the empty string and so the exact-phrase bonus fires. -/
theorem c2_empty_query_counterexample : mockSearch [tsArticle] "" 10 ≠ [] := by
  rw [show mockSearch [tsArticle] "" 10 = [spResult] from ?eval]
  · simp
  case eval =>
    rw [mockSearch_eq]
    rw [show queryWordsOf "" = [] from by decide]
    rw [List.map_cons, List.map_nil]
    rw [show mkScored (jsToLower "") [] tsArticle = spResult from by
      unfold mkScored spResult articleScore
      rw [List.foldl_nil]
      rw [show containsSub (searchableContentOf tsArticle) (jsToLower "") = true from by decide]
      simp only [if_true]
      rw [min_def]
      norm_num [tsArticle]]
    rw [List.filter_cons,
      show decide ((0 : ℚ) < spResult.score) = true from decide_eq_true (by norm_num [spResult])]
    simp only [if_true, List.filter_nil, List.mergeSort_singleton, List.take_succ_cons,
      List.take_nil]

/-- C2 amended: with the empty query no token survives, the exact-phrase
bonus fires for every article, and `mockSearch` returns the first
`limit` corpus articles each scored exactly 0.5; for a whitespace-only
query likewise no token survives, and every returned result carries
score exactly 0.5 (the phrase bonus; articles whose text does not
contain the query are dropped). -/
theorem c2_whitespace_query :
    ∀ (articles : List Article) (query : String) (limit : Nat),
      mockSearch articles "" limit =
        (articles.map (fun a =>
          { id := a.id, score := 0.5, article := a : SearchResult })).take limit ∧
      (wsOnly query = true →
        ∀ r ∈ mockSearch articles query limit, r.score = 0.5) := by
  intro articles query limit
  constructor
  · have hwords : queryWordsOf "" = [] := by decide
    have hscore : ∀ a : Article, articleScore (jsToLower "") (queryWordsOf "") a = 0.5 := by
      intro a
      rw [hwords]
      unfold articleScore
      rw [List.foldl_nil]
      rw [show jsToLower "" = "" from rfl, containsSub_empty_pat]
      simp only [if_true]
      rw [min_def]
      norm_num
    rw [mockSearch_eq]
    have hmap : articles.map (mkScored (jsToLower "") (queryWordsOf ""))
        = articles.map (fun a =>
            { id := a.id, score := 0.5, article := a : SearchResult }) :=
      List.map_congr_left (fun a _ => by
        unfold mkScored
        rw [hscore a])
    rw [hmap]
    have hfilter : (articles.map (fun a =>
        { id := a.id, score := 0.5, article := a : SearchResult })).filter
          (fun item => decide (0 < item.score))
        = articles.map (fun a =>
            { id := a.id, score := 0.5, article := a : SearchResult }) := by
      rw [List.filter_eq_self]
      intro r hr
      obtain ⟨a, _, rfl⟩ := List.mem_map.mp hr
      exact decide_eq_true (show (0 : ℚ) < 0.5 by norm_num)
    rw [hfilter]
    have hsorted : (articles.map (fun a =>
        { id := a.id, score := 0.5, article := a : SearchResult })).Pairwise
          (fun a b => decide (b.score ≤ a.score) = true) := by
      apply List.pairwise_of_forall_mem_list
      intro x hx y hy
      obtain ⟨a, _, rfl⟩ := List.mem_map.mp hx
      obtain ⟨b, _, rfl⟩ := List.mem_map.mp hy
      exact decide_eq_true (show (0.5 : ℚ) ≤ 0.5 from le_rfl)
    rw [List.mergeSort_of_sorted hsorted]
  · intro hws r hr
    rw [mockSearch_eq] at hr
    have hr2 := List.mem_mergeSort.mp ((List.take_sublist _ _).subset hr)
    obtain ⟨hmem, hpos⟩ := List.mem_filter.mp hr2
    obtain ⟨a, _, rfl⟩ := List.mem_map.mp hmem
    have hpos2 : (0 : ℚ) < articleScore (jsToLower query) (queryWordsOf query) a :=
      of_decide_eq_true hpos
    show articleScore (jsToLower query) (queryWordsOf query) a = 0.5
    rw [queryWordsOf_wsOnly hws] at hpos2 ⊢
    unfold articleScore at hpos2 ⊢
    rw [List.foldl_nil] at hpos2 ⊢
    rcases Bool.eq_false_or_eq_true
        (containsSub (searchableContentOf a) (jsToLower query)) with hc | hc
    · rw [hc]
      rw [if_pos rfl]
      rw [min_def]
      norm_num
    · rw [hc] at hpos2
      rw [if_neg (by simp)] at hpos2
      rw [min_def] at hpos2
      norm_num at hpos2

/-- C2 amended witness: the single-space query is whitespace-only and on
the round-trip corpus the returned result has score exactly 0.5. -/
theorem c2_whitespace_query_witness :
    wsOnly " " = true ∧ spResult ∈ mockSearch [tsArticle] " " 10 ∧ spResult.score = 0.5 := by
  have hm : spResult ∈ mockSearch [tsArticle] " " 10 := by
    rw [eval_sp]
    exact List.mem_singleton.mpr rfl
  exact ⟨by decide, hm,
    (c2_whitespace_query [tsArticle] " " 10).2 (by decide) spResult hm⟩

/-- C10 witness: on the round-trip corpus and query `"typescript"` the
returned result's id is its article's id and the article is in the
corpus. -/
theorem c10_results_from_corpus_witness :
    tsResult ∈ mockSearch [tsArticle] "typescript" 10 ∧
      tsResult.id = tsResult.article.id ∧ tsResult.article ∈ [tsArticle] := by
  have hm : tsResult ∈ mockSearch [tsArticle] "typescript" 10 := by
    rw [eval_ts]
    exact List.mem_singleton.mpr rfl
  exact ⟨hm, (c10_results_from_corpus "typescript" 10 [tsArticle]).1 tsResult hm⟩

/-- Raw image subobject of a GraphQL article node. -/
structure RawImage where
  url : String
  alt : Option String
  width : Option Nat
  height : Option Nat

/-- Raw GraphQL article node as consumed by `transformArticle`
(lib/queries.ts): `none` models an absent / null optional field. -/
structure RawNode where
  id : String
  title : String
  path : Option String
  createdTime : Option String
  bodyProcessed : Option String
  summaryValue : Option String
  category : Option String
  tags : Option String
  readTime : Option String
  image : Option RawImage

/-- JavaScript `a || b` for an optional string: the default is used when
the field is absent or the empty string (both falsy). -/
def jsOrS (o : Option String) (d : String) : String :=
  match o with
  | none => d
  | some s => if s = "" then d else s

/-- JavaScript `a || b` for an optional number: the default is used when
the field is absent or 0 (both falsy). -/
def jsOrN (o : Option Nat) (d : Nat) : Nat :=
  match o with
  | none => d
  | some n => if n = 0 then d else n

/-- Worker for `splitOnChar`. -/
def splitOnCharAux (sep : Char) : List Char → List Char → List (List Char)
  | [], acc => [acc.reverse]
  | c :: rest, acc =>
    if c = sep then acc.reverse :: splitOnCharAux sep rest []
    else splitOnCharAux sep rest (c :: acc)

/-- Embedding of `String.prototype.split(sep)` for a one-character
separator: every occurrence separates; empty pieces are kept. -/
def splitOnChar (sep : Char) (s : String) : List String :=
  (splitOnCharAux sep s.data []).map (fun cs => ⟨cs⟩)

/-- Embedding of `String.prototype.trim`: strip whitespace from both
ends. -/
def jsTrim (s : String) : String :=
  ⟨((s.data.dropWhile Char.isWhitespace).reverse.dropWhile Char.isWhitespace).reverse⟩

/-- Embedding of `path.replace(/^\/articles\//, '')`: drop a leading
`/articles/` when present. -/
def stripArticlesPath (p : String) : String :=
  if ("/articles/".data).isPrefixOf p.data then ⟨p.data.drop 10⟩ else p

/-- Embedding of `transformArticle` (lib/queries.ts).  The ambient clock
read by `new Date().toISOString()` for the `publishedAt` default is the
`now` parameter. -/
def transformArticle (now : String) (node : Option RawNode) : Option Article :=
  match node with
  | none => none
  | some n =>
    some
      { id := n.id
        title := n.title
        slug := jsOrS (n.path.map stripArticlesPath) n.id
        body := jsOrS n.bodyProcessed ""
        summary := jsOrS n.summaryValue ""
        category := jsOrS n.category "General"
        tags :=
          match n.tags with
          | none => []
          | some t => if t = "" then [] else (splitOnChar ',' t).map jsTrim
        readTime := jsOrS n.readTime "5 min read"
        publishedAt := jsOrS n.createdTime now
        image :=
          n.image.map (fun im =>
            { url := im.url
              alt := jsOrS im.alt n.title
              width := jsOrN im.width 1200
              height := jsOrN im.height 630 }) }

/-- C6: the content normalizer returns `none` exactly on an absent node,
is total on present nodes (malformed optional fields only trigger
defaulting, never an error), splits-and-trims a `"a, b , c"` tags field
into `["a","b","c"]`, defaults a missing category to `"General"`, a
missing readTime to `"5 min read"`, and an absent path to a slug equal
to the node id. -/
theorem c6_transform_defaults :
    ∀ (now : String) (n : RawNode),
      transformArticle now none = none ∧
      (transformArticle now (some n)).isSome = true ∧
      (n.tags = some "a, b , c" →
        (transformArticle now (some n)).map Article.tags = some ["a", "b", "c"]) ∧
      (n.category = none →
        (transformArticle now (some n)).map Article.category = some "General") ∧
      (n.readTime = none →
        (transformArticle now (some n)).map Article.readTime = some "5 min read") ∧
      (n.path = none →
        (transformArticle now (some n)).map Article.slug = some n.id) := by
  intro now n
  refine ⟨rfl, rfl, ?_, ?_, ?_, ?_⟩
  · intro h
    have hbase : (transformArticle now (some n)).map Article.tags
        = some (match n.tags with
            | none => []
            | some t => if t = "" then [] else (splitOnChar ',' t).map jsTrim) := rfl
    rw [hbase, h]
    decide
  · intro h
    have hbase : (transformArticle now (some n)).map Article.category
        = some (jsOrS n.category "General") := rfl
    rw [hbase, h]
    rfl
  · intro h
    have hbase : (transformArticle now (some n)).map Article.readTime
        = some (jsOrS n.readTime "5 min read") := rfl
    rw [hbase, h]
    rfl
  · intro h
    have hbase : (transformArticle now (some n)).map Article.slug
        = some (jsOrS (n.path.map stripArticlesPath) n.id) := rfl
    rw [hbase, h]
    rfl

/-- A concrete raw node exercising every default of
`transformArticle`. -/
def rawNode0 : RawNode :=
  { id := "node-1"
    title := "T"
    path := none
    createdTime := none
    bodyProcessed := none
    summaryValue := none
    category := none
    tags := some "a, b , c"
    readTime := none
    image := none }

/-- C6 witness: the defaults hold on the concrete node `rawNode0`. -/
theorem c6_transform_defaults_witness :
    rawNode0.tags = some "a, b , c" ∧ rawNode0.category = none ∧
    rawNode0.readTime = none ∧ rawNode0.path = none ∧
    (transformArticle "2024-01-01" (some rawNode0)).map Article.tags = some ["a", "b", "c"] ∧
    (transformArticle "2024-01-01" (some rawNode0)).map Article.category = some "General" ∧
    (transformArticle "2024-01-01" (some rawNode0)).map Article.readTime
      = some "5 min read" ∧
    (transformArticle "2024-01-01" (some rawNode0)).map Article.slug = some rawNode0.id := by
  have h := c6_transform_defaults "2024-01-01" rawNode0
  exact ⟨rfl, rfl, rfl, rfl, h.2.2.1 rfl, h.2.2.2.1 rfl, h.2.2.2.2.1 rfl, h.2.2.2.2.2 rfl⟩

/-- Embedding of `body.replace(/<[^>]*>/g, ' ')`
(scripts/index-content.ts): a group from `<` to the first following `>`
is replaced by a single space; a `<` with no later `>` cannot match and
is kept.  The Bool argument is true while inside a matched group. -/
def stripTagsAux : List Char → Bool → List Char
  | [], _ => []
  | c :: rest, true =>
    if c = '>' then ' ' :: stripTagsAux rest false
    else stripTagsAux rest true
  | c :: rest, false =>
    if c = '<' && rest.contains '>' then stripTagsAux rest true
    else c :: stripTagsAux rest false

/-- Embedding of `.replace(/\s+/g, ' ')`: collapse each maximal
whitespace run to a single space.  The Bool argument is true when the
previous character was whitespace. -/
def collapseWsAux : List Char → Bool → List Char
  | [], _ => []
  | c :: rest, inWs =>
    if c.isWhitespace then
      if inWs then collapseWsAux rest true
      else ' ' :: collapseWsAux rest true
    else c :: collapseWsAux rest false

/-- The `plainBody` computed by the indexer for an article: markup
stripped, whitespace collapsed, ends trimmed. -/
def plainBodyOf (article : Article) : String :=
  jsTrim ⟨collapseWsAux (stripTagsAux article.body.data false) false⟩

/-- The `textToEmbed` string built by the indexer:
title, summary and plain body joined by blank lines. -/
def textToEmbed (article : Article) : String :=
  article.title ++ "\n\n" ++ article.summary ++ "\n\n" ++ plainBodyOf article

/-- The `truncatedText` actually sent to the embedding provider:
`textToEmbed.slice(0, 32000)`. -/
def truncatedText (article : Article) : String :=
  ⟨(textToEmbed article).data.take 32000⟩

/-- C7: the indexer embeds `title + "\n\n" + summary + "\n\n" +
plainBody` truncated to 32,000 characters, so the embedded text never
exceeds 32,000 characters. -/
theorem c7_embed_text_bounded :
    ∀ (article : Article),
      (truncatedText article).data
          = (article.title ++ "\n\n" ++ article.summary ++ "\n\n"
              ++ plainBodyOf article).data.take 32000 ∧
      (truncatedText article).length ≤ 32000 := by
  intro article
  refine ⟨rfl, ?_⟩
  show ((textToEmbed article).data.take 32000).length ≤ 32000
  exact List.length_take_le _ _

/-- Abstract events of one indexing run (scripts/index-content.ts
`main`), in the order the run performs them. -/
inductive IndexEvent where
  | listIndexes
  | createIndex
  | waitReady
  | deleteAll
  | fetchArticles
  | embed (text : String)
  | upsert (id : String)
  | delay
deriving DecidableEq

/-- Trace of `ensureIndexExists` (scripts/index-content.ts): list the
indexes; when the target is absent, create it and wait for readiness. -/
def ensureIndexExistsTrace (indexIsPresent : Bool) : List IndexEvent :=
  [.listIndexes] ++ (if indexIsPresent then [] else [.createIndex, .waitReady])

/-- Trace of one run of the indexer's `main`
(scripts/index-content.ts): ensure the index exists, then (when
`--reset` was passed) clear it, then fetch the articles and
embed-and-upsert each one in order with a rate-limit delay. -/
def mainTrace (shouldReset indexIsPresent : Bool) (articles : List Article) : List IndexEvent :=
  ensureIndexExistsTrace indexIsPresent
    ++ (if shouldReset then [.deleteAll] else [])
    ++ [.fetchArticles]
    ++ articles.flatMap (fun a => [.embed (truncatedText a), .upsert a.id, .delay])

/-- Phase number of an event: ensure-index events precede the clear,
which precedes the fetch, which precedes the per-article loop. -/
def phase : IndexEvent → Nat
  | .listIndexes => 0
  | .createIndex => 1
  | .waitReady => 2
  | .deleteAll => 3
  | .fetchArticles => 4
  | .embed _ => 5
  | .upsert _ => 5
  | .delay => 5

/-- C8 is false as stated: in a reset run on an absent index, the clear
(`deleteAll`) executes after the index-existence check and the index
creation, not before them. -/
theorem c8_clear_first_counterexample :
    (mainTrace true false [])[0]? = some .listIndexes ∧
    (mainTrace true false [])[1]? = some .createIndex ∧
    (mainTrace true false [])[3]? = some .deleteAll ∧
    IndexEvent.deleteAll ∉ (mainTrace true false []).take 3 := by
  refine ⟨rfl, rfl, rfl, ?_⟩
  decide

/-- Every event of the per-article loop has phase 5. -/
theorem phase_loop (articles : List Article) :
    ∀ e ∈ articles.flatMap
      (fun a => [IndexEvent.embed (truncatedText a), IndexEvent.upsert a.id, IndexEvent.delay]),
      phase e = 5 := by
  intro e he
  rw [List.mem_flatMap] at he
  obtain ⟨a, _, he⟩ := he
  simp only [List.mem_cons, List.not_mem_nil, or_false] at he
  rcases he with rfl | rfl | rfl <;> rfl

/-- C8 amended: in every reset run the phases along the trace are
monotone — the index-existence check (and creation) comes first, the
clear (`deleteAll`) strictly after it, then the fetch, then the
embed-and-upsert loop; in particular the clear always executes after
the index-existence/creation step and before the loop. -/
theorem c8_reset_phase_order :
    ∀ (indexIsPresent : Bool) (articles : List Article),
      (mainTrace true indexIsPresent articles).Pairwise (fun x y => phase x ≤ phase y) := by
  intro ip articles
  unfold mainTrace
  have hloop := phase_loop articles
  have hensure : ∀ e ∈ ensureIndexExistsTrace ip, phase e ≤ 2 := by
    cases ip <;> decide
  have hensure_pair : (ensureIndexExistsTrace ip).Pairwise (fun x y => phase x ≤ phase y) := by
    cases ip <;> decide
  have hX : ∀ e ∈ (ensureIndexExistsTrace ip
      ++ (if true then [IndexEvent.deleteAll] else []) ++ [IndexEvent.fetchArticles]),
      phase e ≤ 4 := by
    intro e he
    rw [List.mem_append] at he
    rcases he with he | he
    · rw [List.mem_append] at he
      rcases he with he | he
      · calc phase e ≤ 2 := hensure e he
        _ ≤ 4 := by omega
      · simp only [if_pos, List.mem_singleton] at he
        subst he
        decide
    · rw [List.mem_singleton] at he
      subst he
      decide
  rw [List.pairwise_append]
  refine ⟨?_, ?_, ?_⟩
  · rw [List.pairwise_append]
    refine ⟨?_, by decide, ?_⟩
    · rw [List.pairwise_append]
      refine ⟨hensure_pair, by decide, ?_⟩
      · intro a ha b hb
        simp only [if_pos, List.mem_singleton] at hb
        subst hb
        calc phase a ≤ 2 := hensure a ha
        _ ≤ 3 := by omega
    · intro a ha b hb
      rw [List.mem_singleton] at hb
      subst hb
      rw [List.mem_append] at ha
      rcases ha with ha | ha
      · calc phase a ≤ 2 := hensure a ha
        _ ≤ 4 := by omega
      · simp only [if_pos, List.mem_singleton] at ha
        subst ha
        decide
  · exact List.pairwise_of_forall_mem_list (fun a ha b hb => by
      rw [hloop a ha, hloop b hb])
  · intro a ha b hb
    calc phase a ≤ 4 := hX a ha
    _ ≤ phase b := by rw [hloop b hb]; omega

/-- Backend calls the search route can make. -/
inductive BackendCall where
  | mockSearchCall
  | vectorSearchCall
deriving DecidableEq

/-- Outcome of the vector-path `searchArticles` call (an external
network call; its outcome is a parameter of the model). -/
inductive VectorOutcome where
  | ok (results : List SearchResult)
  | missingKeyError
  | otherError

/-- Body of the JSON response of `GET /api/search`. -/
inductive SearchBody where
  | errorMsg (msg : String)
  | results (query : String) (results : List SearchResult) (totalResults : Nat)

/-- Embedding of the `GET` handler of app/api/search/route.ts.  The
parsed `q` parameter is `none` when missing (and `!query` is also true
for the present-but-empty string); `limit` stands for the already
parsed integer of the limit parameter, defaulting to 10; the demo-mode
flag, the demo corpus and the vector-path outcome are parameters.  The
second component lists the backend calls the handler performs. -/
def searchGET (demoMode : Bool) (q : Option String) (limit : Nat)
    (corpus : List Article) (vector : VectorOutcome) :
    (Nat × SearchBody) × List BackendCall :=
  match q with
  | none => ((400, .errorMsg "Query parameter \"q\" is required"), [])
  | some query =>
    if query = "" then
      ((400, .errorMsg "Query parameter \"q\" is required"), [])
    else if demoMode then
      ((200, .results query (mockSearch corpus query limit)
        (mockSearch corpus query limit).length), [.mockSearchCall])
    else
      match vector with
      | .ok results => ((200, .results query results results.length), [.vectorSearchCall])
      | .missingKeyError =>
        ((503, .errorMsg "Pinecone is not configured. Please run npm run setup."),
          [.vectorSearchCall])
      | .otherError =>
        ((500, .errorMsg "Search failed. Please try again."), [.vectorSearchCall])

/-- C9: a request with no `q` parameter gets HTTP 400 with an error body
and the handler performs no backend call — neither the vector search nor
the fallback scorer runs. -/
theorem c9_missing_q_is_400_no_backend :
    ∀ (demoMode : Bool) (limit : Nat) (corpus : List Article) (vector : VectorOutcome),
      (searchGET demoMode none limit corpus vector).1.1 = 400 ∧
      (searchGET demoMode none limit corpus vector).2 = [] ∧
      ∃ msg, (searchGET demoMode none limit corpus vector).1.2 = SearchBody.errorMsg msg := by
  intro d l c v
  exact ⟨rfl, rfl, ⟨_, rfl⟩⟩
